import Mathlib

/-!
Verification of the DataProfiler statistical profiling engine.

The engine is embedded shallowly from `src/app/analysis.py` (class `DataAnalyzer`),
with the divergent z-score path of `src/app/tasks.py` (`DataAnalysisTask._detect_anomalies`)
modelled separately.  IEEE-754 doubles are embedded as exact rationals; a pandas
NaN/null is `Option.none`.  Square roots (standard deviation, Pearson coefficients)
are irrational, so such quantities are carried in exact square/radical form:
the sample variance stands for the square of the standard deviation, and a Pearson
coefficient `r = sxy / sqrt(sxx*syy)` is carried as the pair `(sxy, sxx*syy)`;
every comparison the source performs on these floats is expressible exactly on
that representation.
-/

namespace DataProfiler

/-- Cell of a pandas column: `none` models a null/NaN entry, `some q` a numeric value. -/
abbrev Cell := Option ℚ

/-- Column of a DataFrame: its name, whether `select_dtypes(include=[np.number])`
classifies it as numeric, the `str(dtype)` string used for metadata, and its cells.
For non-numeric columns only the nullness of each cell is ever inspected
(`isnull` counting and the dtype string), so their payloads are abstracted to
`Cell` as well. -/
structure Column where
  name : String
  isNum : Bool
  dtypeName : String
  cells : List Cell
deriving DecidableEq

instance : Inhabited Column := ⟨⟨"", false, "", []⟩⟩

/-- A pandas DataFrame as produced by `pd.read_csv`: the default RangeIndex
`0, 1, ..., nrows-1` supplies the original row identifiers, and columns are ordered. -/
structure DataFrame where
  nrows : Nat
  cols : List Column
deriving DecidableEq

/-- Well-formedness: every column holds exactly `nrows` cells. -/
def DataFrame.WF (df : DataFrame) : Prop := ∀ c ∈ df.cols, c.cells.length = df.nrows

/-- Pandas `df.empty`: true when either axis has length zero. -/
def DataFrame.isEmptyDF (df : DataFrame) : Bool := df.nrows == 0 || df.cols.length == 0

/-- Source `df.select_dtypes(include=[np.number]).columns`: the numeric columns,
in original column order. -/
def numericCols (df : DataFrame) : List Column := df.cols.filter (·.isNum)

/-- Source `df[col].dropna()` keeping the original index labels: the list of
(original row index, value) for the non-null cells, in row order. -/
def nonNullPairs (c : Column) : List (Nat × ℚ) :=
  c.cells.enum.filterMap (fun p => p.2.map (fun v => (p.1, v)))

/-- The non-null values of a column, in row order. -/
def nonNull (c : Column) : List ℚ := (nonNullPairs c).map (·.2)

/-- Arithmetic mean of a list of rationals.  On the empty list this is `0/0 = 0`;
pandas would produce NaN there, and every use below is either guarded by emptiness
or wrapped in an `Option`. -/
def meanQ (l : List ℚ) : ℚ := l.sum / (l.length : ℚ)

/-- Population variance (ddof = 0), the square of the standard deviation used by
scipy `stats.zscore`. -/
def popVar (l : List ℚ) : ℚ :=
  ((l.map (fun x => (x - meanQ l) ^ 2)).sum) / (l.length : ℚ)

/-- Sample variance (ddof = 1), the square of the pandas `Series.std()` value.
Meaningful only for lists with at least two elements; callers guard with `none`
exactly where pandas produces NaN. -/
def sampleVarQ (l : List ℚ) : ℚ :=
  ((l.map (fun x => (x - meanQ l) ^ 2)).sum) / ((l.length : ℚ) - 1)

/-- Linear-interpolation quantile of an ascending-sorted list `ys` at probability
`p` (the numpy/pandas default `interpolation='linear'`): with `m = ys.length`, the
fractional position is `h = p * (m-1)`; writing `i = ⌊h⌋` and `g = h - i`, the
result interpolates `ys[i] + g * (ys[i+1] - ys[i])` (the right neighbour defaults
to `ys[i]` at the top boundary, where `g = 0` anyway). -/
def quantileSorted (ys : List ℚ) (p : ℚ) : ℚ :=
  let m := ys.length
  let h := p * ((m : ℚ) - 1)
  let i := (⌊h⌋).toNat
  let g := h - (i : ℚ)
  let a := ys.getD i 0
  let b := ys.getD (i + 1) a
  a + g * (b - a)

/-- Pandas `Series.quantile(p)` over a list of (non-null) values: sort ascending,
then interpolate linearly. -/
def quantileQ (l : List ℚ) (p : ℚ) : ℚ :=
  quantileSorted (l.insertionSort (· ≤ ·)) p

/-- Minimum of a list of rationals (pandas `Series.min()` over non-null values);
`0` on the empty list, where pandas gives NaN and callers guard. -/
def listMinQ : List ℚ → ℚ
  | [] => 0
  | x :: xs => xs.foldl min x

/-- Maximum of a list of rationals (pandas `Series.max()` over non-null values). -/
def listMaxQ : List ℚ → ℚ
  | [] => 0
  | x :: xs => xs.foldl max x

/-- Per-column record built by `DataAnalyzer.calculate_basic_stats`.  A field is
`none` exactly where pandas produces NaN: every field when the column has no
non-null value, and `stdSq` also when it has exactly one.  `stdSq` carries the
square of the sample standard deviation (the sample variance, ddof = 1) because
the standard deviation itself is irrational; `std ≥ 0` facts are phrased on
`stdSq`, a square root being defined and nonnegative together.  The source also
computes skewness and kurtosis; they are irrational-valued (they divide by the
third and fourth powers of the standard deviation), are inspected by no claim,
and are not modelled. -/
structure ColumnStats where
  mean : Option ℚ
  stdSq : Option ℚ
  min : Option ℚ
  max : Option ℚ
  median : Option ℚ
  q1 : Option ℚ
  q3 : Option ℚ
deriving DecidableEq

/-- Statistics of one numeric column over its non-null values `l`. -/
def colStats (l : List ℚ) : ColumnStats where
  mean := if l = [] then none else some (meanQ l)
  stdSq := if l.length < 2 then none else some (sampleVarQ l)
  min := if l = [] then none else some (listMinQ l)
  max := if l = [] then none else some (listMaxQ l)
  median := if l = [] then none else some (quantileQ l (1/2))
  q1 := if l = [] then none else some (quantileQ l (1/4))
  q3 := if l = [] then none else some (quantileQ l (3/4))

/-- Source `DataAnalyzer.calculate_basic_stats`: one stats record per numeric
column, keyed by column name, in column order. -/
def calculate_basic_stats (df : DataFrame) : List (String × ColumnStats) :=
  (numericCols df).map (fun c => (c.name, colStats (nonNull c)))

/-- Null count of one column, `df[col].isnull().sum()`. -/
def nullCount (c : Column) : Nat := c.cells.countP (·.isNone)

/-- Round a rational to the nearest integer, ties to even — the IEEE-754
round-half-to-even used by numpy/pandas `.round`. -/
def roundHalfEven (q : ℚ) : ℤ :=
  if q - (⌊q⌋ : ℚ) < 1/2 then ⌊q⌋
  else if (1 : ℚ)/2 < q - (⌊q⌋ : ℚ) then ⌊q⌋ + 1
  else if ⌊q⌋ % 2 = 0 then ⌊q⌋ else ⌊q⌋ + 1

/-- Pandas `.round(2)`: round to two decimal places, ties to even. -/
def round2 (q : ℚ) : ℚ := ((roundHalfEven (q * 100)) : ℚ) / 100

/-- Result dict of `DataAnalyzer.analyze_missing_values`; the per-column dicts are
modelled as association lists in column order. -/
structure MissingReport where
  total_missing : Nat
  missing_per_column : List (String × Nat)
  missing_percentage : List (String × ℚ)
deriving DecidableEq

/-- Source `DataAnalyzer.analyze_missing_values`: total null count, per-column
null counts, and per-column percentages `count / len(df) * 100` rounded to two
decimals. -/
def analyze_missing_values (df : DataFrame) : MissingReport where
  total_missing := (df.cols.map nullCount).sum
  missing_per_column := df.cols.map (fun c => (c.name, nullCount c))
  missing_percentage :=
    df.cols.map (fun c => (c.name, round2 ((nullCount c : ℚ) / (df.nrows : ℚ) * 100)))

/-- Exact representation of a defined (non-NaN) Pearson coefficient
`r = num / sqrt den` with `den > 0` for every value the program constructs. -/
structure CorrVal where
  num : ℚ
  den : ℚ
deriving DecidableEq

/-- Square of the represented coefficient: `r² = num² / den`.  Every float
comparison the source performs on coefficients (`abs(r) > 0.5`, sort by `abs`)
is equivalent to the corresponding exact comparison of these squares. -/
def corrSq (v : CorrVal) : ℚ := v.num ^ 2 / v.den

/-- Rows where both columns are non-null: pandas computes each correlation
pairwise-complete. -/
def pairedVals (a b : Column) : List (ℚ × ℚ) :=
  (a.cells.zip b.cells).filterMap (fun p =>
    match p with
    | (some x, some y) => some (x, y)
    | _ => none)

/-- Pandas `DataFrame.corr()` entry for two columns: Pearson over the
pairwise-complete rows.  `none` models a NaN entry (zero variance in either
column over the complete rows, including fewer than two such rows).  A defined
entry is `⟨sxy, sxx*syy⟩`, the exact form of `r = sxy / sqrt (sxx*syy)` where
`sxy`, `sxx`, `syy` are the centred cross- and self-products. -/
def pearson (a b : Column) : Option CorrVal :=
  let ps := pairedVals a b
  let mx : ℚ := meanQ (ps.map (·.1))
  let my : ℚ := meanQ (ps.map (·.2))
  let sxy : ℚ := (ps.map (fun p => (p.1 - mx) * (p.2 - my))).sum
  let sxx : ℚ := (ps.map (fun p => (p.1 - mx) ^ 2)).sum
  let syy : ℚ := (ps.map (fun p => (p.2 - my) ^ 2)).sum
  if sxx * syy = 0 then none else some ⟨sxy, sxx * syy⟩

/-- One entry of the `strong_correlations` list of `analyze_correlations`. -/
structure StrongCorr where
  column1 : String
  column2 : String
  corr : CorrVal
deriving DecidableEq

/-- Index pairs visited by the Python loops
`for i in range(n): for j in range(i+1, n)`, in iteration order: the strict
upper triangle of an `n × n` matrix. -/
def upperTriIdx (n : Nat) : List (Nat × Nat) :=
  ((List.range n).map (fun i =>
    (List.range' (i + 1) (n - (i + 1))).map (fun j => (i, j)))).flatten

/-- Loop body of the strong-correlation extraction at index pair `(i, j)`:
`if abs(corr_matrix.iloc[i, j]) > 0.5: append(...)`.  A NaN matrix entry
compares false in Python, so the pair is silently skipped; for a defined entry,
`abs r > 0.5` is exactly `r² > 1/4`. -/
def strongEntryAt (df : DataFrame) (ij : Nat × Nat) : Option StrongCorr :=
  let nc := numericCols df
  let ci := nc.getD ij.1 default
  let cj := nc.getD ij.2 default
  match pearson ci cj with
  | none => none
  | some v => if 1/4 < corrSq v then some ⟨ci.name, cj.name, v⟩ else none

/-- The strong-correlation list before sorting, in matrix iteration order. -/
def strongEntries (df : DataFrame) : List StrongCorr :=
  (upperTriIdx (numericCols df).length).filterMap (strongEntryAt df)

/-- Comparison used to model
`sorted(strong_correlations, key=lambda x: abs(x["correlation"]), reverse=True)`:
descending absolute coefficient, i.e. descending coefficient square.  Python's
sort is a stable mergesort, modelled with `List.mergeSort`. -/
def corrGE (a b : StrongCorr) : Bool := decide (corrSq b.corr ≤ corrSq a.corr)

/-- Full correlation matrix `numeric_df.corr()` in exact form.  The source also
keeps a 3-decimal rounded copy for display only; the rounded floats are
irrational functions of the data, are inspected by no claim, and are not
modelled. -/
def corrMatrix (df : DataFrame) : List (List (Option CorrVal)) :=
  (numericCols df).map (fun a => (numericCols df).map (fun b => pearson a b))

/-- Result of `analyze_correlations`: either the explicit not-applicable marker
dict `{"message": ...}` or the matrix together with the sorted strong list. -/
inductive CorrResult where
  | message (s : String)
  | result (matrix : List (List (Option CorrVal))) (strong : List StrongCorr)
deriving DecidableEq

/-- Source `DataAnalyzer.analyze_correlations`. -/
def analyze_correlations (df : DataFrame) : CorrResult :=
  if (numericCols df).length < 2 then
    CorrResult.message ("Not enough numeric columns for correlation analysis")
  else
    CorrResult.result (corrMatrix df) ((strongEntries df).mergeSort corrGE)

/-- The strong-correlation list of `analyze_correlations` (empty in the
message case, where the source dict has no such key). -/
def strongList (df : DataFrame) : List StrongCorr :=
  match analyze_correlations df with
  | CorrResult.message _ => []
  | CorrResult.result _ s => s

/-- Rows flagged by the z-score method of `DataAnalyzer.detect_anomalies`, as
original row indices: scipy `stats.zscore` (ddof = 0) over the null-dropped
values flags a value when `|v - μ| / σ > 3`, i.e. exactly when
`(v - μ)² > 9 σ²`.  When `σ = 0` (constant or near-empty data) every z-score is
the NaN `0/0` and `NaN > 3` is false, so nothing is flagged and no error is
raised — the variance-zero guard models this. -/
def zscoreFlagged (pairs : List (Nat × ℚ)) : List Nat :=
  let vals := pairs.map (·.2)
  let v := popVar vals
  if v = 0 then []
  else (pairs.filter (fun p => decide (9 * v < (p.2 - meanQ vals) ^ 2))).map (·.1)

/-- Rows flagged by the IQR method of `DataAnalyzer.detect_anomalies`, as
original row indices: values outside `[Q1 - 1.5·IQR, Q3 + 1.5·IQR]` over the
null-dropped values. -/
def iqrFlagged (pairs : List (Nat × ℚ)) : List Nat :=
  let vals := pairs.map (·.2)
  let q1 := quantileQ vals (1/4)
  let q3 := quantileQ vals (3/4)
  let iqr := q3 - q1
  (pairs.filter (fun p =>
    decide (p.2 < q1 - 3/2 * iqr) || decide (q3 + 3/2 * iqr < p.2))).map (·.1)

/-- Count and (truncated) index list reported for one detection method. -/
structure MethodResult where
  count : Nat
  indices : List Nat
deriving DecidableEq

/-- The two per-column anomaly records. -/
structure ColAnomalies where
  z_score_anomalies : MethodResult
  iqr_anomalies : MethodResult
deriving DecidableEq

/-- Source `DataAnalyzer.detect_anomalies` (analysis.py): for every numeric
column, each method's `count` is the length of the untruncated flag list and
`indices` is that list cut to its first 100 elements. -/
def detect_anomalies (df : DataFrame) : List (String × ColAnomalies) :=
  (numericCols df).map (fun c =>
    let pairs := nonNullPairs c
    let z := zscoreFlagged pairs
    let i := iqrFlagged pairs
    (c.name, ⟨⟨z.length, z.take 100⟩, ⟨i.length, i.take 100⟩⟩))

/-- Source `DataAnalysisTask._detect_anomalies` (tasks.py), z-score part: the
boolean mask `z_scores > 3` is computed over the null-dropped values but applied
to the full frame as `df[z_scores > threshold]`.  Pandas raises
`ValueError: Item wrong length` whenever the mask is shorter than the frame,
i.e. whenever the column contains any null — modelled as `none`.  Without nulls
the mask aligns positionally with the RangeIndex and the original row indices
are returned. -/
def tasksZscoreIndices (df : DataFrame) (c : Column) : Option (List Nat) :=
  let pairs := nonNullPairs c
  if pairs.length = df.nrows then some (zscoreFlagged pairs) else none

/-- Shape of `DataAnalyzer.generate_visualizations`, with the plotly figure
payloads abstracted (they are display JSON, out of the engine's scope): which
columns receive histogram and boxplot figures, and whether the correlation
heatmap is produced (the source returns `None` for it when fewer than two
numeric columns exist). -/
structure Visualizations where
  histogramColumns : List String
  heatmapPresent : Bool
  boxplotColumns : List String
deriving DecidableEq

/-- Source `DataAnalyzer.generate_visualizations` (shape only). -/
def generate_visualizations (df : DataFrame) : Visualizations where
  histogramColumns := (numericCols df).map (·.name)
  heatmapPresent := decide (2 ≤ (numericCols df).length)
  boxplotColumns := (numericCols df).map (·.name)

/-- Value stored under one top-level key of the profile dict. -/
inductive ProfileValue where
  | stats (s : List (String × ColumnStats))
  | missing (m : MissingReport)
  | corr (c : CorrResult)
  | anomalies (a : List (String × ColAnomalies))
  | metadata (rows : Nat) (columns : List String) (dtypes : List (String × String))
  | viz (v : Visualizations)
deriving DecidableEq

/-- Source `DataAnalyzer.__init__` followed by `DataAnalyzer.analyze`: the
constructor raises `ValueError("DataFrame is empty")` on an empty frame before
any analysis runs (modelled as `Except.error`); otherwise `analyze` builds the
result dict with five literal keys and then assigns the sixth key
`visualizations`.  The Python dict is modelled as its insertion-ordered
key/value list. -/
def DataAnalyzer.analyze (df : DataFrame) :
    Except String (List (String × ProfileValue)) :=
  if df.isEmptyDF then Except.error ("DataFrame is empty")
  else Except.ok
    ([("basic_stats", ProfileValue.stats (calculate_basic_stats df)),
      ("missing_values", ProfileValue.missing (analyze_missing_values df)),
      ("correlations", ProfileValue.corr (analyze_correlations df)),
      ("anomalies", ProfileValue.anomalies (detect_anomalies df)),
      ("metadata", ProfileValue.metadata df.nrows (df.cols.map (·.name))
        (df.cols.map (fun c => (c.name, c.dtypeName))))] ++
     [("visualizations", ProfileValue.viz (generate_visualizations df))])

/-- Top-level keys of the profile dict, in insertion order. -/
def profileKeys (df : DataFrame) : Except String (List String) :=
  (DataAnalyzer.analyze df).map (fun l => l.map Prod.fst)

/-! Concrete datasets used by witnesses and counterexamples. -/

/-- A frame with zero rows (and one declared column), as parsed from a
header-only CSV. -/
def dfEmpty : DataFrame := ⟨0, [⟨"a", true, "float64", []⟩]⟩

/-- A single numeric column holding one value. -/
def colOne : Column := ⟨"x", true, "int64", [some 5]⟩

/-- A 1 × 1 numeric frame. -/
def dfOne : DataFrame := ⟨1, [colOne]⟩

/-- A numeric column with a null in the middle and a gross outlier at the end:
`[0, 0, null, 0, 0, 0, 0, 0, 0, 0, 0, 1000]`, original indices 0..11. -/
def colNull : Column :=
  ⟨"x", true, "float64",
    [some 0, some 0, none, some 0, some 0, some 0, some 0, some 0, some 0,
     some 0, some 0, some 1000]⟩

/-- The 12-row frame around `colNull`. -/
def dfNull : DataFrame := ⟨12, [colNull]⟩

/-- A constant numeric column. -/
def colConst : Column := ⟨"c", true, "int64", [some 7, some 7, some 7, some 7]⟩

/-- The 4-row frame around `colConst`. -/
def dfConst : DataFrame := ⟨4, [colConst]⟩

/-- Column `A = [1, 2, 3, 4, 100]` of the correlated scenario. -/
def colA : Column := ⟨"A", true, "int64", [some 1, some 2, some 3, some 4, some 100]⟩

/-- Column `B = [2, 4, 6, 8, 10]` of the correlated scenario. -/
def colB : Column := ⟨"B", true, "int64", [some 2, some 4, some 6, some 8, some 10]⟩

/-- The 5-row two-numeric-column frame of the correlated scenario. -/
def dfCorr : DataFrame := ⟨5, [colA, colB]⟩

/-- The one strong correlation of `dfCorr` in exact form:
`r = 400 / sqrt 304400 ≈ 0.725`. -/
def entryAB : StrongCorr := ⟨"A", "B", ⟨400, 304400⟩⟩

/-! Theorems. -/

/-- Claim C2: on a dataset with zero rows, profiling fails with the
empty-dataset ValueError raised in the constructor, before any of the four
analyses runs; the error result carries no statistics, correlations or
anomalies. -/
theorem claim_C2_empty_dataset (df : DataFrame) (h : df.nrows = 0) :
    DataAnalyzer.analyze df = Except.error ("DataFrame is empty") := by
  simp [DataAnalyzer.analyze, DataFrame.isEmptyDF, h]

/-- Witness for C2: the zero-row frame `dfEmpty` aborts with the error. -/
theorem claim_C2_witness :
    dfEmpty.nrows = 0 ∧
      DataAnalyzer.analyze dfEmpty = Except.error ("DataFrame is empty") :=
  ⟨rfl, claim_C2_empty_dataset dfEmpty rfl⟩

/-- Claim C5: with fewer than two numeric columns, correlation analysis returns
the explicit message marker (and, being a total function, raises nothing). -/
theorem claim_C5_insufficient_columns (df : DataFrame)
    (h : (numericCols df).length < 2) :
    analyze_correlations df =
      CorrResult.message ("Not enough numeric columns for correlation analysis") := by
  simp [analyze_correlations, h]

/-- Witness for C5: the single-numeric-column frame `dfOne`. -/
theorem claim_C5_witness :
    (numericCols dfOne).length < 2 ∧
      analyze_correlations dfOne =
        CorrResult.message ("Not enough numeric columns for correlation analysis") :=
  ⟨by decide, claim_C5_insufficient_columns dfOne (by decide)⟩

/-- Claim C7: for every column, the reported missing percentage is the rounded
`count / rows * 100` (round-half-to-even to two decimals, the numpy rule), and
the per-column counts sum to the reported total. -/
theorem claim_C7_missing_values (df : DataFrame) (_h : 0 < df.nrows) :
    (analyze_missing_values df).missing_percentage =
      (analyze_missing_values df).missing_per_column.map
        (fun p => (p.1, round2 ((p.2 : ℚ) / (df.nrows : ℚ) * 100)))
    ∧ ((analyze_missing_values df).missing_per_column.map (·.2)).sum =
      (analyze_missing_values df).total_missing := by
  exact ⟨by simp only [analyze_missing_values, List.map_map]; rfl,
         by simp only [analyze_missing_values, List.map_map]; rfl⟩

/-- Witness for C7 at the 12-row frame with a null. -/
theorem claim_C7_witness :
    0 < dfNull.nrows ∧
      ((analyze_missing_values dfNull).missing_percentage =
        (analyze_missing_values dfNull).missing_per_column.map
          (fun p => (p.1, round2 ((p.2 : ℚ) / (dfNull.nrows : ℚ) * 100)))
      ∧ ((analyze_missing_values dfNull).missing_per_column.map (·.2)).sum =
        (analyze_missing_values dfNull).total_missing) :=
  ⟨by decide, claim_C7_missing_values dfNull (by decide)⟩

/-- Counterexample for claim C3: on the 1 × 1 frame `dfOne`, the orchestrator's
dict has the six top-level keys `basic_stats, missing_values, correlations,
anomalies, metadata, visualizations` — the key `visualizations` is present but
is not among the five keys the claim allows, so the key set is not exactly the
claimed five. -/
theorem claim_C3_counterexample :
    profileKeys dfOne =
      Except.ok ["basic_stats", "missing_values", "correlations", "anomalies",
        "metadata", "visualizations"]
    ∧ ("visualizations" : String) ∉
        ["basic_stats", "missing_values", "correlations", "anomalies", "metadata"] := by
  refine ⟨rfl, ?_⟩
  simp

/-- Claim C3 as amended: for every non-empty dataset the profile dict has
exactly the six top-level keys `basic_stats, missing_values, correlations,
anomalies, metadata, visualizations` (in that insertion order), and `metadata`
holds the row count, the column names and the per-column dtype strings. -/
theorem claim_C3_amended (df : DataFrame) (h : df.isEmptyDF = false) :
    profileKeys df =
      Except.ok ["basic_stats", "missing_values", "correlations", "anomalies",
        "metadata", "visualizations"]
    ∧ (DataAnalyzer.analyze df).map (fun l => l.lookup "metadata") =
        Except.ok (some (ProfileValue.metadata df.nrows (df.cols.map (·.name))
          (df.cols.map (fun c => (c.name, c.dtypeName))))) := by
  constructor
  · simp only [profileKeys, DataAnalyzer.analyze, h, Bool.false_eq_true, if_false]
    rfl
  · simp only [DataAnalyzer.analyze, h, Bool.false_eq_true, if_false]
    rfl

/-- Witness for the amended C3 at `dfOne`. -/
theorem claim_C3_amended_witness :
    dfOne.isEmptyDF = false ∧
      (profileKeys dfOne =
        Except.ok ["basic_stats", "missing_values", "correlations", "anomalies",
          "metadata", "visualizations"]
      ∧ (DataAnalyzer.analyze dfOne).map (fun l => l.lookup "metadata") =
          Except.ok (some (ProfileValue.metadata dfOne.nrows (dfOne.cols.map (·.name))
            (dfOne.cols.map (fun c => (c.name, c.dtypeName)))))) :=
  ⟨rfl, claim_C3_amended dfOne rfl⟩

/-- Claim C4: for every numeric column's anomaly entry, each method reports
`indices` as the untruncated flag list cut to its first 100 elements in
original order, while `count` is the untruncated length; hence
`count ≥ len(indices)` always, with equality whenever `count ≤ 100`. -/
theorem claim_C4_truncation (df : DataFrame) (c : Column)
    (hc : c ∈ numericCols df) :
    ∃ r : ColAnomalies, (c.name, r) ∈ detect_anomalies df
      ∧ r.z_score_anomalies.count = (zscoreFlagged (nonNullPairs c)).length
      ∧ r.z_score_anomalies.indices = (zscoreFlagged (nonNullPairs c)).take 100
      ∧ r.iqr_anomalies.count = (iqrFlagged (nonNullPairs c)).length
      ∧ r.iqr_anomalies.indices = (iqrFlagged (nonNullPairs c)).take 100
      ∧ r.z_score_anomalies.indices.length ≤ r.z_score_anomalies.count
      ∧ r.iqr_anomalies.indices.length ≤ r.iqr_anomalies.count
      ∧ (r.z_score_anomalies.count ≤ 100 →
          r.z_score_anomalies.indices.length = r.z_score_anomalies.count)
      ∧ (r.iqr_anomalies.count ≤ 100 →
          r.iqr_anomalies.indices.length = r.iqr_anomalies.count) := by
  refine ⟨⟨⟨(zscoreFlagged (nonNullPairs c)).length,
            (zscoreFlagged (nonNullPairs c)).take 100⟩,
           ⟨(iqrFlagged (nonNullPairs c)).length,
            (iqrFlagged (nonNullPairs c)).take 100⟩⟩,
    List.mem_map_of_mem _ hc, rfl, rfl, rfl, rfl, ?_, ?_, ?_, ?_⟩
  · dsimp only
    simp only [List.length_take]
    omega
  · dsimp only
    simp only [List.length_take]
    omega
  · dsimp only
    intro h
    simp only [List.length_take]
    omega
  · dsimp only
    intro h
    simp only [List.length_take]
    omega

/-- Witness for C4 at the constant column of `dfConst`. -/
theorem claim_C4_witness :
    colConst ∈ numericCols dfConst ∧
      ∃ r : ColAnomalies, (colConst.name, r) ∈ detect_anomalies dfConst
        ∧ r.z_score_anomalies.count = (zscoreFlagged (nonNullPairs colConst)).length
        ∧ r.z_score_anomalies.indices = (zscoreFlagged (nonNullPairs colConst)).take 100
        ∧ r.iqr_anomalies.count = (iqrFlagged (nonNullPairs colConst)).length
        ∧ r.iqr_anomalies.indices = (iqrFlagged (nonNullPairs colConst)).take 100
        ∧ r.z_score_anomalies.indices.length ≤ r.z_score_anomalies.count
        ∧ r.iqr_anomalies.indices.length ≤ r.iqr_anomalies.count
        ∧ (r.z_score_anomalies.count ≤ 100 →
            r.z_score_anomalies.indices.length = r.z_score_anomalies.count)
        ∧ (r.iqr_anomalies.count ≤ 100 →
            r.iqr_anomalies.indices.length = r.iqr_anomalies.count) :=
  ⟨by simp [numericCols, dfConst, colConst],
    claim_C4_truncation dfConst colConst (by simp [numericCols, dfConst, colConst])⟩

/-- Claim C8: a numeric column whose non-null values have zero variance (covers
constant columns and columns with fewer than two non-null values) yields no
z-score anomalies: every z-score is the NaN `0/0`, which compares false against
the threshold, and the total function raises no numeric error. -/
theorem claim_C8_zero_variance (df : DataFrame) (c : Column)
    (hc : c ∈ numericCols df)
    (hv : popVar ((nonNullPairs c).map (·.2)) = 0) :
    zscoreFlagged (nonNullPairs c) = []
    ∧ ∃ r : ColAnomalies, (c.name, r) ∈ detect_anomalies df
        ∧ r.z_score_anomalies = ⟨0, []⟩ := by
  have hz : zscoreFlagged (nonNullPairs c) = [] := by
    simp [zscoreFlagged, hv]
  refine ⟨hz, ⟨⟨⟨(zscoreFlagged (nonNullPairs c)).length,
                 (zscoreFlagged (nonNullPairs c)).take 100⟩,
                ⟨(iqrFlagged (nonNullPairs c)).length,
                 (iqrFlagged (nonNullPairs c)).take 100⟩⟩,
      List.mem_map_of_mem _ hc, ?_⟩⟩
  rw [hz]
  rfl

/-- Witness for C8 at the constant column of `dfConst`. -/
theorem claim_C8_witness :
    popVar ((nonNullPairs colConst).map (·.2)) = 0 ∧
      (zscoreFlagged (nonNullPairs colConst) = []
      ∧ ∃ r : ColAnomalies, (colConst.name, r) ∈ detect_anomalies dfConst
          ∧ r.z_score_anomalies = ⟨0, []⟩) := by
  have hp : nonNullPairs colConst = [(0, 7), (1, 7), (2, 7), (3, 7)] := rfl
  have hv : popVar ((nonNullPairs colConst).map (·.2)) = 0 := by
    rw [hp]
    norm_num [popVar, meanQ]
  exact ⟨hv, claim_C8_zero_variance dfConst colConst
    (by simp [numericCols, dfConst, colConst]) hv⟩

/-- Membership in the upper-triangle iteration: exactly the pairs `i < j < n`. -/
theorem mem_upperTriIdx {n i j : Nat} : (i, j) ∈ upperTriIdx n ↔ i < j ∧ j < n := by
  simp only [upperTriIdx, List.mem_flatten, List.mem_map, List.mem_range]
  constructor
  · rintro ⟨l, ⟨a, ha, rfl⟩, hm⟩
    simp only [List.mem_map] at hm
    obtain ⟨jj, hj, hEq⟩ := hm
    cases hEq
    rw [List.mem_range'_1] at hj
    omega
  · rintro ⟨hij, hj⟩
    refine ⟨(List.range' (i + 1) (n - (i + 1))).map (fun j => (i, j)),
      ⟨i, by omega, rfl⟩, ?_⟩
    simp only [List.mem_map]
    refine ⟨j, ?_, rfl⟩
    rw [List.mem_range'_1]
    omega

/-- The upper-triangle index list has no duplicates. -/
theorem upperTriIdx_nodup (n : Nat) : (upperTriIdx n).Nodup := by
  rw [upperTriIdx, List.nodup_flatten]
  constructor
  · intro l hl
    simp only [List.mem_map] at hl
    obtain ⟨i, _, rfl⟩ := hl
    refine (List.nodup_range' _ _).map ?_
    intro a b hab
    simpa using congrArg Prod.snd hab
  · rw [List.pairwise_map]
    refine (List.pairwise_lt_range n).imp ?_
    intro a b hab x hx hx'
    simp only [List.mem_map] at hx hx'
    obtain ⟨u, _, rfl⟩ := hx
    obtain ⟨v, _, h2⟩ := hx'
    have : b = a := congrArg Prod.fst h2
    omega

/-- The sort comparison is transitive. -/
theorem corrGE_trans : ∀ a b c : StrongCorr, corrGE a b → corrGE b c → corrGE a c := by
  intro a b c hab hbc
  simp only [corrGE, decide_eq_true_eq] at *
  exact le_trans hbc hab

/-- The sort comparison is total. -/
theorem corrGE_total : ∀ a b : StrongCorr, corrGE a b || corrGE b a := by
  intro a b
  simp only [corrGE, Bool.or_eq_true, decide_eq_true_eq]
  exact le_total _ _

/-- With at least two numeric columns, `analyze_correlations` takes the
matrix-plus-sorted-strong-list branch. -/
theorem analyze_correlations_eq (df : DataFrame)
    (h : 2 ≤ (numericCols df).length) :
    analyze_correlations df =
      CorrResult.result (corrMatrix df) ((strongEntries df).mergeSort corrGE) := by
  rw [analyze_correlations, if_neg (by omega)]

/-- The strong list under the two-column precondition. -/
theorem strongList_eq (df : DataFrame) (h : 2 ≤ (numericCols df).length) :
    strongList df = (strongEntries df).mergeSort corrGE := by
  rw [strongList, analyze_correlations_eq df h]

/-- Inversion of the loop body: a produced entry comes from a defined Pearson
value that passed the `|r| > 0.5` test. -/
theorem strongEntryAt_inv {df : DataFrame} {ij : Nat × Nat} {e : StrongCorr}
    (h : strongEntryAt df ij = some e) :
    pearson ((numericCols df).getD ij.1 default)
        ((numericCols df).getD ij.2 default) = some e.corr
    ∧ 1/4 < corrSq e.corr := by
  simp only [strongEntryAt] at h
  split at h
  · exact Option.noConfusion h
  · rename_i v hv
    split at h
    · rename_i hgt
      cases h
      exact ⟨hv, hgt⟩
    · exact Option.noConfusion h

/-- Cauchy–Schwarz for a list of pairs of rationals. -/
theorem list_cauchy_schwarz (ps : List (ℚ × ℚ)) :
    ((ps.map (fun p => p.1 * p.2)).sum) ^ 2 ≤
      ((ps.map (fun p => p.1 ^ 2)).sum) * ((ps.map (fun p => p.2 ^ 2)).sum) := by
  conv_lhs => rw [← List.ofFn_get ps]
  conv_rhs => rw [← List.ofFn_get ps]
  simp only [List.map_ofFn, List.sum_ofFn, Function.comp]
  exact Finset.sum_mul_sq_le_sq_mul_sq Finset.univ _ _

/-- Cauchy–Schwarz for centred pairs. -/
theorem centered_cauchy_schwarz (ps : List (ℚ × ℚ)) (mx my : ℚ) :
    ((ps.map (fun p => (p.1 - mx) * (p.2 - my))).sum) ^ 2 ≤
      ((ps.map (fun p => (p.1 - mx) ^ 2)).sum) *
        ((ps.map (fun p => (p.2 - my) ^ 2)).sum) := by
  have h := list_cauchy_schwarz (ps.map (fun p => (p.1 - mx, p.2 - my)))
  simp only [List.map_map] at h
  exact h

/-- Positivity of the centred self-product sums, and the Cauchy–Schwarz bound,
under the nonzero-product guard of `pearson`. -/
theorem corr_pair_bound (ps : List (ℚ × ℚ)) (mx my : ℚ)
    (hne : ((ps.map (fun p => (p.1 - mx) ^ 2)).sum) *
      ((ps.map (fun p => (p.2 - my) ^ 2)).sum) ≠ 0) :
    0 < ((ps.map (fun p => (p.1 - mx) ^ 2)).sum) *
        ((ps.map (fun p => (p.2 - my) ^ 2)).sum)
    ∧ ((ps.map (fun p => (p.1 - mx) * (p.2 - my))).sum) ^ 2 ≤
      ((ps.map (fun p => (p.1 - mx) ^ 2)).sum) *
        ((ps.map (fun p => (p.2 - my) ^ 2)).sum) := by
  have hx : (0:ℚ) ≤ (ps.map (fun p => (p.1 - mx) ^ 2)).sum := by
    refine List.sum_nonneg ?_
    intro x hx
    simp only [List.mem_map] at hx
    obtain ⟨p, _, rfl⟩ := hx
    positivity
  have hy : (0:ℚ) ≤ (ps.map (fun p => (p.2 - my) ^ 2)).sum := by
    refine List.sum_nonneg ?_
    intro y hy
    simp only [List.mem_map] at hy
    obtain ⟨p, _, rfl⟩ := hy
    positivity
  exact ⟨lt_of_le_of_ne (mul_nonneg hx hy) (Ne.symm hne),
    centered_cauchy_schwarz ps mx my⟩

/-- Every defined Pearson value has a positive radicand and a coefficient of
absolute value at most one (`r² ≤ 1`, by Cauchy–Schwarz). -/
theorem pearson_inv (a b : Column) (v : CorrVal) (h : pearson a b = some v) :
    0 < v.den ∧ corrSq v ≤ 1 := by
  simp only [pearson] at h
  split at h
  · exact Option.noConfusion h
  · rename_i hne
    cases h
    constructor
    · exact (corr_pair_bound _ _ _ hne).1
    · dsimp only [corrSq]
      rw [div_le_one (corr_pair_bound _ _ _ hne).1]
      exact (corr_pair_bound _ _ _ hne).2

/-- Claim C6: with at least two numeric columns, the strong-correlation list is
the stable descending sort (by absolute coefficient, i.e. by coefficient
square) of the entries collected from the strict upper triangle in iteration
order: it is a permutation of the collected entries, sorted descending; any two
collected entries with tied keys keep their iteration order (stability); every
member stems from an index pair `i < j` and passed the `|r| > 0.5` test; and
the visited index pairs are duplicate-free with `i < j` (no self or reversed
pairs). -/
theorem claim_C6_strong_extraction (df : DataFrame)
    (h : 2 ≤ (numericCols df).length) :
    analyze_correlations df =
      CorrResult.result (corrMatrix df) ((strongEntries df).mergeSort corrGE)
    ∧ List.Perm (strongList df) (strongEntries df)
    ∧ (strongList df).Pairwise (fun a b => corrSq b.corr ≤ corrSq a.corr)
    ∧ (∀ a b : StrongCorr, List.Sublist [a, b] (strongEntries df) →
        corrSq a.corr = corrSq b.corr → List.Sublist [a, b] (strongList df))
    ∧ (∀ e ∈ strongList df, ∃ i j, i < j ∧ j < (numericCols df).length ∧
        strongEntryAt df (i, j) = some e ∧ 1/4 < corrSq e.corr)
    ∧ (upperTriIdx (numericCols df).length).Nodup
    ∧ (∀ ij ∈ upperTriIdx (numericCols df).length, ij.1 < ij.2) := by
  have hsl := strongList_eq df h
  refine ⟨analyze_correlations_eq df h, ?_, ?_, ?_, ?_, upperTriIdx_nodup _, ?_⟩
  · rw [hsl]
    exact List.mergeSort_perm _ _
  · rw [hsl]
    refine (List.sorted_mergeSort corrGE_trans corrGE_total (strongEntries df)).imp ?_
    intro a b hab
    simpa [corrGE] using hab
  · intro a b hsub heq
    rw [hsl]
    exact List.pair_sublist_mergeSort corrGE_trans corrGE_total
      (by simp [corrGE, heq]) hsub
  · intro e he
    rw [hsl, List.mem_mergeSort, strongEntries, List.mem_filterMap] at he
    obtain ⟨⟨i, j⟩, hij, hsome⟩ := he
    rw [mem_upperTriIdx] at hij
    exact ⟨i, j, hij.1, hij.2, hsome, (strongEntryAt_inv hsome).2⟩
  · intro ij hij
    obtain ⟨i, j⟩ := ij
    rw [mem_upperTriIdx] at hij
    exact hij.1

/-- Witness for C6 at the two-column frame `dfCorr`. -/
theorem claim_C6_witness :
    2 ≤ (numericCols dfCorr).length ∧
      (analyze_correlations dfCorr =
        CorrResult.result (corrMatrix dfCorr) ((strongEntries dfCorr).mergeSort corrGE)
      ∧ List.Perm (strongList dfCorr) (strongEntries dfCorr)
      ∧ (strongList dfCorr).Pairwise (fun a b => corrSq b.corr ≤ corrSq a.corr)
      ∧ (∀ a b : StrongCorr, List.Sublist [a, b] (strongEntries dfCorr) →
          corrSq a.corr = corrSq b.corr → List.Sublist [a, b] (strongList dfCorr))
      ∧ (∀ e ∈ strongList dfCorr, ∃ i j, i < j ∧ j < (numericCols dfCorr).length ∧
          strongEntryAt dfCorr (i, j) = some e ∧ 1/4 < corrSq e.corr)
      ∧ (upperTriIdx (numericCols dfCorr).length).Nodup
      ∧ (∀ ij ∈ upperTriIdx (numericCols dfCorr).length, ij.1 < ij.2)) :=
  ⟨by decide, claim_C6_strong_extraction dfCorr (by decide)⟩

/-- Claim C10: every surfaced strong-correlation entry carries a defined
(non-NaN) Pearson coefficient — undefined pairs are silently excluded by the
comparison, never raised — and the coefficient satisfies `0.5 < |r| ≤ 1`
(exactly: positive radicand and `1/4 < r² ≤ 1`). -/
theorem claim_C10_defined_bounded (df : DataFrame)
    (h : 2 ≤ (numericCols df).length) :
    ∀ e ∈ strongList df,
      (∃ i j, i < j ∧ j < (numericCols df).length ∧
        pearson ((numericCols df).getD i default)
          ((numericCols df).getD j default) = some e.corr)
      ∧ 0 < e.corr.den ∧ 1/4 < corrSq e.corr ∧ corrSq e.corr ≤ 1 := by
  intro e he
  rw [strongList_eq df h, List.mem_mergeSort, strongEntries,
    List.mem_filterMap] at he
  obtain ⟨⟨i, j⟩, hij, hsome⟩ := he
  rw [mem_upperTriIdx] at hij
  obtain ⟨hp, hgt⟩ := strongEntryAt_inv hsome
  obtain ⟨hpos, hle⟩ := pearson_inv _ _ _ hp
  exact ⟨⟨i, j, hij.1, hij.2, hp⟩, hpos, hgt, hle⟩

/-- Witness for C10 at `dfCorr`. -/
theorem claim_C10_witness :
    2 ≤ (numericCols dfCorr).length ∧
      ∀ e ∈ strongList dfCorr,
        (∃ i j, i < j ∧ j < (numericCols dfCorr).length ∧
          pearson ((numericCols dfCorr).getD i default)
            ((numericCols dfCorr).getD j default) = some e.corr)
        ∧ 0 < e.corr.den ∧ 1/4 < corrSq e.corr ∧ corrSq e.corr ≤ 1 :=
  ⟨by decide, claim_C10_defined_bounded dfCorr (by decide)⟩

/-- Concrete check of the correlated scenario: the strong list of `dfCorr` is
exactly the single (A, B) entry, whose coefficient `400 / sqrt 304400 ≈ 0.725`
is strong. -/
theorem strongList_dfCorr_eq : strongList dfCorr = [entryAB] := by
  have h2 : (2:Nat) ≤ (numericCols dfCorr).length := by decide
  rw [strongList_eq dfCorr h2]
  have hpairs : pairedVals colA colB = [(1,2),(2,4),(3,6),(4,8),(100,10)] := rfl
  have hp : pearson colA colB = some ⟨400, 304400⟩ := by
    simp only [pearson, hpairs]
    norm_num [meanQ]
  have hentry : strongEntryAt dfCorr (0, 1) = some entryAB := by
    have hstep : strongEntryAt dfCorr (0, 1) =
        (if 1/4 < corrSq ⟨400, 304400⟩ then
          some ⟨colA.name, colB.name, ⟨400, 304400⟩⟩ else none) := by
      simp only [strongEntryAt]
      rw [show (numericCols dfCorr).getD 0 default = colA from rfl,
          show (numericCols dfCorr).getD 1 default = colB from rfl, hp]
    rw [hstep, if_pos (by norm_num [corrSq])]
    rfl
  have htri : upperTriIdx (numericCols dfCorr).length = [(0, 1)] := rfl
  rw [strongEntries, htri]
  simp [List.filterMap, hentry]

/-- Claim C1 (code bug in tasks.py): on the 12-row frame `dfNull` whose column
holds a null at row 2 and a gross outlier at row 11, the analysis.py detector
reports the z-score outlier under its original row index 11 (not its position 10
within the null-dropped subsequence), while the tasks.py z-score path — whose
boolean mask is computed over the 11 null-dropped values but applied to the
12-row frame — raises the pandas length-mismatch ValueError (modelled `none`)
instead of reporting any original index. -/
theorem claim_C1_original_row_indices :
    zscoreFlagged (nonNullPairs colNull) = [11]
    ∧ (∃ r : ColAnomalies, ("x", r) ∈ detect_anomalies dfNull
        ∧ r.z_score_anomalies.count = 1 ∧ r.z_score_anomalies.indices = [11])
    ∧ tasksZscoreIndices dfNull colNull = none := by
  have hp : nonNullPairs colNull =
      [(0, 0), (1, 0), (3, 0), (4, 0), (5, 0), (6, 0), (7, 0), (8, 0), (9, 0),
       (10, 0), (11, 1000)] := rfl
  have hm : meanQ [0, 0, 0, 0, 0, 0, 0, 0, 0, 0, (1000:ℚ)] = 1000/11 := by
    norm_num [meanQ]
  have hv : popVar [0, 0, 0, 0, 0, 0, 0, 0, 0, 0, (1000:ℚ)] = 10000000/121 := by
    norm_num [popVar, meanQ]
  have hz : zscoreFlagged (nonNullPairs colNull) = [11] := by
    rw [hp]
    simp only [zscoreFlagged, List.map_cons, List.map_nil, hv, hm]
    rw [if_neg (by norm_num)]
    norm_num [List.filter_cons, List.filter_nil]
  refine ⟨hz, ?_, ?_⟩
  · have hcm : colNull ∈ numericCols dfNull := by
      simp [numericCols, dfNull, colNull]
    have hmem := List.mem_map_of_mem
      (fun c => ((c.name : String),
        (⟨⟨(zscoreFlagged (nonNullPairs c)).length,
           (zscoreFlagged (nonNullPairs c)).take 100⟩,
          ⟨(iqrFlagged (nonNullPairs c)).length,
           (iqrFlagged (nonNullPairs c)).take 100⟩⟩ : ColAnomalies))) hcm
    refine ⟨⟨⟨(zscoreFlagged (nonNullPairs colNull)).length,
              (zscoreFlagged (nonNullPairs colNull)).take 100⟩,
             ⟨(iqrFlagged (nonNullPairs colNull)).length,
              (iqrFlagged (nonNullPairs colNull)).take 100⟩⟩, hmem, ?_, ?_⟩
    · rw [hz]
      rfl
    · rw [hz]
      rfl
  · simp [tasksZscoreIndices, hp, dfNull]

/-- Unfolding equation of `quantileSorted`. -/
theorem quantileSorted_eq (ys : List ℚ) (p : ℚ) :
    quantileSorted ys p =
      ys.getD ((⌊p * ((ys.length : ℚ) - 1)⌋).toNat) 0 +
        (p * ((ys.length : ℚ) - 1) - (((⌊p * ((ys.length : ℚ) - 1)⌋).toNat : ℚ))) *
          (ys.getD ((⌊p * ((ys.length : ℚ) - 1)⌋).toNat + 1)
              (ys.getD ((⌊p * ((ys.length : ℚ) - 1)⌋).toNat) 0) -
            ys.getD ((⌊p * ((ys.length : ℚ) - 1)⌋).toNat) 0) := rfl

/-- `getD` with an in-range index is `get`. -/
theorem getD_eq_get_of_lt (l : List ℚ) (d : ℚ) (i : Nat) (h : i < l.length) :
    l.getD i d = l.get ⟨i, h⟩ := by
  simp [List.getD_eq_getElem?_getD, List.getElem?_eq_getElem h]

/-- `getD` past the end returns the default. -/
theorem getD_default_of_le (l : List ℚ) (d : ℚ) (n : Nat) (h : l.length ≤ n) :
    l.getD n d = d := by
  simp [List.getD_eq_getElem?_getD, List.getElem?_eq_none h]

/-- On an ascending-sorted list, `getD` is monotone over in-range indices. -/
theorem sorted_getD_mono {ys : List ℚ} (hs : ys.Sorted (· ≤ ·)) (d d' : ℚ)
    {i j : Nat} (hij : i ≤ j) (hj : j < ys.length) : ys.getD i d ≤ ys.getD j d' := by
  have hi : i < ys.length := Nat.lt_of_le_of_lt hij hj
  rw [getD_eq_get_of_lt _ _ _ hi, getD_eq_get_of_lt _ _ _ hj]
  exact hs.rel_get_of_le (Fin.mk_le_mk.mpr hij)

/-- An in-range `getD` value is a member of the list. -/
theorem getD_mem_of_lt (l : List ℚ) (d : ℚ) (i : Nat) (h : i < l.length) :
    l.getD i d ∈ l := by
  rw [getD_eq_get_of_lt _ _ _ h]
  exact List.get_mem l _ _

/-- Index facts for the interpolation position of `quantileSorted`: with
`1 ≤ m` and `0 ≤ p ≤ 1`, the index `⌊p*(m-1)⌋.toNat` is in range and the
fractional part lies in `[0, 1]`. -/
theorem quantile_index_facts (m : Nat) (hm : 1 ≤ m) {p : ℚ} (h0 : 0 ≤ p)
    (h1 : p ≤ 1) :
    (⌊p * ((m : ℚ) - 1)⌋).toNat < m
    ∧ (((⌊p * ((m : ℚ) - 1)⌋).toNat : ℚ)) ≤ p * ((m : ℚ) - 1)
    ∧ p * ((m : ℚ) - 1) - (((⌊p * ((m : ℚ) - 1)⌋).toNat : ℚ)) ≤ 1 := by
  have hm1 : (0:ℚ) ≤ (m : ℚ) - 1 := by
    have hcast : (1:ℚ) ≤ (m : ℚ) := by exact_mod_cast hm
    linarith
  have hh0 : 0 ≤ p * ((m : ℚ) - 1) := mul_nonneg h0 hm1
  have hfl0 : 0 ≤ ⌊p * ((m : ℚ) - 1)⌋ := Int.floor_nonneg.mpr hh0
  have hcast : (((⌊p * ((m : ℚ) - 1)⌋).toNat : ℚ)) = ((⌊p * ((m : ℚ) - 1)⌋ : ℤ) : ℚ) := by
    exact_mod_cast Int.toNat_of_nonneg hfl0
  refine ⟨?_, ?_, ?_⟩
  · have hub : ⌊p * ((m : ℚ) - 1)⌋ ≤ (m : ℤ) - 1 := by
      rw [Int.floor_le_iff]
      push_cast
      nlinarith [mul_le_of_le_one_left hm1 h1]
    omega
  · rw [hcast]
    exact Int.floor_le _
  · rw [hcast]
    have hlt := Int.lt_floor_add_one (p * ((m : ℚ) - 1))
    push_cast at hlt
    linarith

/-- Linear interpolation between `a ≤ b` with coefficient in `[0, 1]` stays in
`[a, b]`. -/
theorem interp_le {a b g : ℚ} (hab : a ≤ b) (h0 : 0 ≤ g) (h1 : g ≤ 1) :
    a ≤ a + g * (b - a) ∧ a + g * (b - a) ≤ b := by
  constructor
  · nlinarith
  · nlinarith

/-- The sorted-list quantile lies between two members of the list. -/
theorem quantileSorted_between {ys : List ℚ} (hs : ys.Sorted (· ≤ ·))
    (hne : ys ≠ []) {p : ℚ} (h0 : 0 ≤ p) (h1 : p ≤ 1) :
    ∃ a ∈ ys, ∃ b ∈ ys, a ≤ quantileSorted ys p ∧ quantileSorted ys p ≤ b := by
  have hm : 1 ≤ ys.length := List.length_pos.mpr hne
  obtain ⟨hi, hle, hg1⟩ := quantile_index_facts ys.length hm h0 h1
  rw [quantileSorted_eq]
  rcases Nat.lt_or_ge ((⌊p * ((ys.length : ℚ) - 1)⌋).toNat + 1) ys.length with
    hlt | hge
  · have hab : ys.getD ((⌊p * ((ys.length : ℚ) - 1)⌋).toNat) 0 ≤
        ys.getD ((⌊p * ((ys.length : ℚ) - 1)⌋).toNat + 1)
          (ys.getD ((⌊p * ((ys.length : ℚ) - 1)⌋).toNat) 0) :=
      sorted_getD_mono hs _ _ (Nat.le_succ _) hlt
    obtain ⟨hlo, hhi⟩ := interp_le hab (by linarith) hg1
    exact ⟨_, getD_mem_of_lt ys 0 _ hi, _, getD_mem_of_lt ys _ _ hlt, hlo, hhi⟩
  · rw [getD_default_of_le ys _ _ hge]
    refine ⟨_, getD_mem_of_lt ys 0 _ hi, _, getD_mem_of_lt ys 0 _ hi, ?_, ?_⟩
    · nlinarith
    · nlinarith

/-- The sorted-list quantile is monotone in the probability. -/
theorem quantileSorted_mono {ys : List ℚ} (hs : ys.Sorted (· ≤ ·)) (hne : ys ≠ [])
    {p q : ℚ} (h0 : 0 ≤ p) (hpq : p ≤ q) (h1 : q ≤ 1) :
    quantileSorted ys p ≤ quantileSorted ys q := by
  have hm : 1 ≤ ys.length := List.length_pos.mpr hne
  have hq0 : 0 ≤ q := le_trans h0 hpq
  have hp1 : p ≤ 1 := le_trans hpq h1
  obtain ⟨hiP, hleP, hgP⟩ := quantile_index_facts ys.length hm h0 hp1
  obtain ⟨hiQ, hleQ, hgQ⟩ := quantile_index_facts ys.length hm hq0 h1
  have hm1 : (0:ℚ) ≤ (ys.length : ℚ) - 1 := by
    have hcast : (1:ℚ) ≤ (ys.length : ℚ) := by exact_mod_cast hm
    linarith
  have hxy : p * ((ys.length : ℚ) - 1) ≤ q * ((ys.length : ℚ) - 1) :=
    mul_le_mul_of_nonneg_right hpq hm1
  have hij : (⌊p * ((ys.length : ℚ) - 1)⌋).toNat ≤ (⌊q * ((ys.length : ℚ) - 1)⌋).toNat := by
    have hff := Int.floor_le_floor hxy
    omega
  rw [quantileSorted_eq, quantileSorted_eq]
  rcases Nat.eq_or_lt_of_le hij with heq | hlt
  · rw [← heq]
    have hab : ys.getD ((⌊p * ((ys.length : ℚ) - 1)⌋).toNat) 0 ≤
        ys.getD ((⌊p * ((ys.length : ℚ) - 1)⌋).toNat + 1)
          (ys.getD ((⌊p * ((ys.length : ℚ) - 1)⌋).toNat) 0) := by
      rcases Nat.lt_or_ge ((⌊p * ((ys.length : ℚ) - 1)⌋).toNat + 1) ys.length with
        hlt2 | hge2
      · exact sorted_getD_mono hs _ _ (Nat.le_succ _) hlt2
      · rw [getD_default_of_le ys _ _ hge2]
    have hmul := mul_le_mul_of_nonneg_right
      (show p * ((ys.length : ℚ) - 1) - (((⌊p * ((ys.length : ℚ) - 1)⌋).toNat : ℚ)) ≤
        q * ((ys.length : ℚ) - 1) - (((⌊p * ((ys.length : ℚ) - 1)⌋).toNat : ℚ)) by linarith)
      (sub_nonneg.mpr hab)
    linarith
  · have hj1 : (⌊p * ((ys.length : ℚ) - 1)⌋).toNat + 1 ≤
        (⌊q * ((ys.length : ℚ) - 1)⌋).toNat := hlt
    have hilen1 : (⌊p * ((ys.length : ℚ) - 1)⌋).toNat + 1 < ys.length :=
      Nat.lt_of_le_of_lt hj1 hiQ
    have hab : ys.getD ((⌊p * ((ys.length : ℚ) - 1)⌋).toNat) 0 ≤
        ys.getD ((⌊p * ((ys.length : ℚ) - 1)⌋).toNat + 1)
          (ys.getD ((⌊p * ((ys.length : ℚ) - 1)⌋).toNat) 0) :=
      sorted_getD_mono hs _ _ (Nat.le_succ _) hilen1
    have h1b := (interp_le hab (by linarith) hgP).2
    have hbc : ys.getD ((⌊p * ((ys.length : ℚ) - 1)⌋).toNat + 1)
          (ys.getD ((⌊p * ((ys.length : ℚ) - 1)⌋).toNat) 0) ≤
        ys.getD ((⌊q * ((ys.length : ℚ) - 1)⌋).toNat) 0 :=
      sorted_getD_mono hs _ _ hj1 hiQ
    have habj : ys.getD ((⌊q * ((ys.length : ℚ) - 1)⌋).toNat) 0 ≤
        ys.getD ((⌊q * ((ys.length : ℚ) - 1)⌋).toNat + 1)
          (ys.getD ((⌊q * ((ys.length : ℚ) - 1)⌋).toNat) 0) := by
      rcases Nat.lt_or_ge ((⌊q * ((ys.length : ℚ) - 1)⌋).toNat + 1) ys.length with
        hlt2 | hge2
      · exact sorted_getD_mono hs _ _ (Nat.le_succ _) hlt2
      · rw [getD_default_of_le ys _ _ hge2]
    have hcq := (interp_le habj (by linarith) hgQ).1
    linarith

/-- The pandas quantile of a non-empty value list lies between two of its
members. -/
theorem quantileQ_between {l : List ℚ} (hne : l ≠ []) {p : ℚ} (h0 : 0 ≤ p)
    (h1 : p ≤ 1) :
    ∃ a ∈ l, ∃ b ∈ l, a ≤ quantileQ l p ∧ quantileQ l p ≤ b := by
  have hperm : List.Perm (l.insertionSort (· ≤ ·)) l := List.perm_insertionSort _ l
  have hs : (l.insertionSort (· ≤ ·)).Sorted (· ≤ ·) := List.sorted_insertionSort _ l
  have hne' : l.insertionSort (· ≤ ·) ≠ [] := by
    intro hcontra
    rw [hcontra] at hperm
    exact hne hperm.nil_eq.symm
  obtain ⟨a, ha, b, hb, h3, h4⟩ := quantileSorted_between hs hne' h0 h1
  exact ⟨a, hperm.mem_iff.mp ha, b, hperm.mem_iff.mp hb, h3, h4⟩

/-- The pandas quantile is monotone in the probability. -/
theorem quantileQ_mono {l : List ℚ} (hne : l ≠ []) {p q : ℚ} (h0 : 0 ≤ p)
    (hpq : p ≤ q) (h1 : q ≤ 1) : quantileQ l p ≤ quantileQ l q := by
  have hperm : List.Perm (l.insertionSort (· ≤ ·)) l := List.perm_insertionSort _ l
  have hs : (l.insertionSort (· ≤ ·)).Sorted (· ≤ ·) := List.sorted_insertionSort _ l
  have hne' : l.insertionSort (· ≤ ·) ≠ [] := by
    intro hcontra
    rw [hcontra] at hperm
    exact hne hperm.nil_eq.symm
  exact quantileSorted_mono hs hne' h0 hpq h1

/-- A left fold of `min` is below its accumulator. -/
theorem foldl_min_le_acc (xs : List ℚ) (a : ℚ) : xs.foldl min a ≤ a := by
  induction xs generalizing a with
  | nil => simp
  | cons y ys ih => simpa using le_trans (ih (min a y)) (min_le_left a y)

/-- A left fold of `min` is below every element folded over. -/
theorem foldl_min_le_mem (xs : List ℚ) (a x : ℚ) (hx : x ∈ xs) :
    xs.foldl min a ≤ x := by
  induction xs generalizing a with
  | nil => cases hx
  | cons y ys ih =>
    rcases List.mem_cons.mp hx with rfl | hx'
    · exact le_trans (foldl_min_le_acc ys (min a x)) (min_le_right a x)
    · exact ih (min a y) hx'

/-- A left fold of `max` is above its accumulator. -/
theorem acc_le_foldl_max (xs : List ℚ) (a : ℚ) : a ≤ xs.foldl max a := by
  induction xs generalizing a with
  | nil => simp
  | cons y ys ih => simpa using le_trans (le_max_left a y) (ih (max a y))

/-- A left fold of `max` is above every element folded over. -/
theorem mem_le_foldl_max (xs : List ℚ) (a x : ℚ) (hx : x ∈ xs) :
    x ≤ xs.foldl max a := by
  induction xs generalizing a with
  | nil => cases hx
  | cons y ys ih =>
    rcases List.mem_cons.mp hx with rfl | hx'
    · exact le_trans (le_max_right a x) (acc_le_foldl_max ys (max a x))
    · exact ih (max a y) hx'

/-- `listMinQ` bounds every member from below. -/
theorem listMinQ_le {l : List ℚ} {x : ℚ} (hx : x ∈ l) : listMinQ l ≤ x := by
  cases l with
  | nil => cases hx
  | cons y ys =>
    rcases List.mem_cons.mp hx with rfl | hx'
    · exact foldl_min_le_acc ys x
    · exact foldl_min_le_mem ys y x hx'

/-- `listMaxQ` bounds every member from above. -/
theorem le_listMaxQ {l : List ℚ} {x : ℚ} (hx : x ∈ l) : x ≤ listMaxQ l := by
  cases l with
  | nil => cases hx
  | cons y ys =>
    rcases List.mem_cons.mp hx with rfl | hx'
    · exact acc_le_foldl_max ys x
    · exact mem_le_foldl_max ys y x hx'

/-- The sample variance of a list with at least two elements is nonnegative. -/
theorem sampleVarQ_nonneg {l : List ℚ} (h2 : 2 ≤ l.length) : 0 ≤ sampleVarQ l := by
  refine div_nonneg (List.sum_nonneg ?_) ?_
  · intro x hx
    simp only [List.mem_map] at hx
    obtain ⟨y, _, rfl⟩ := hx
    positivity
  · have hcast : (2:ℚ) ≤ (l.length : ℚ) := by exact_mod_cast h2
    linarith

/-- Counterexample for claim C9: the numeric column of `dfOne` has exactly one
non-null value, so pandas computes its sample standard deviation (N-1
denominator) as the NaN `0/0`; the stored std is NaN (`none`), and `std ≥ 0` —
which requires std to be a defined nonnegative number — fails, although the
column has at least one non-null value. -/
theorem claim_C9_counterexample :
    calculate_basic_stats dfOne = [("x", colStats [(5:ℚ)])]
    ∧ (colStats [(5:ℚ)]).stdSq = none
    ∧ ¬ ∃ w : ℚ, (colStats [(5:ℚ)]).stdSq = some w ∧ 0 ≤ w := by
  refine ⟨rfl, rfl, ?_⟩
  rintro ⟨w, hw, _⟩
  rw [show (colStats [(5:ℚ)]).stdSq = none from rfl] at hw
  exact Option.noConfusion hw

/-- Claim C9 as amended: for every numeric column with at least one non-null
value, the stats record carries the linear-interpolation quantiles (25th, 50th,
75th percentiles), the minimum and the maximum, and these satisfy
`q1 ≤ median ≤ q3`, `min ≤ q1`, `q3 ≤ max`; the sample standard deviation
(ddof = 1) is nonnegative whenever it is defined, and it is defined exactly when
the column has at least two non-null values (with exactly one it is NaN — the
only correction to the original claim). -/
theorem claim_C9_stats_invariants (df : DataFrame) (c : Column)
    (hc : c ∈ numericCols df) (hne : nonNull c ≠ []) :
    (c.name, colStats (nonNull c)) ∈ calculate_basic_stats df
    ∧ (colStats (nonNull c)).q1 = some (quantileQ (nonNull c) (1/4))
    ∧ (colStats (nonNull c)).median = some (quantileQ (nonNull c) (1/2))
    ∧ (colStats (nonNull c)).q3 = some (quantileQ (nonNull c) (3/4))
    ∧ (colStats (nonNull c)).min = some (listMinQ (nonNull c))
    ∧ (colStats (nonNull c)).max = some (listMaxQ (nonNull c))
    ∧ quantileQ (nonNull c) (1/4) ≤ quantileQ (nonNull c) (1/2)
    ∧ quantileQ (nonNull c) (1/2) ≤ quantileQ (nonNull c) (3/4)
    ∧ listMinQ (nonNull c) ≤ quantileQ (nonNull c) (1/4)
    ∧ quantileQ (nonNull c) (3/4) ≤ listMaxQ (nonNull c)
    ∧ (∀ w : ℚ, (colStats (nonNull c)).stdSq = some w → 0 ≤ w)
    ∧ (2 ≤ (nonNull c).length →
        (colStats (nonNull c)).stdSq = some (sampleVarQ (nonNull c))
        ∧ 0 ≤ sampleVarQ (nonNull c)) := by
  refine ⟨List.mem_map_of_mem _ hc, by simp [colStats, hne], by simp [colStats, hne],
    by simp [colStats, hne], by simp [colStats, hne], by simp [colStats, hne],
    ?_, ?_, ?_, ?_, ?_, ?_⟩
  · exact @quantileQ_mono (nonNull c) hne (1/4) (1/2) (by norm_num) (by norm_num)
      (by norm_num)
  · exact @quantileQ_mono (nonNull c) hne (1/2) (3/4) (by norm_num) (by norm_num)
      (by norm_num)
  · obtain ⟨a, ha, b, hb, h3, h4⟩ :=
      @quantileQ_between (nonNull c) hne (1/4) (by norm_num) (by norm_num)
    exact le_trans (listMinQ_le ha) h3
  · obtain ⟨a, ha, b, hb, h3, h4⟩ :=
      @quantileQ_between (nonNull c) hne (3/4) (by norm_num) (by norm_num)
    exact le_trans h4 (le_listMaxQ hb)
  · intro w hw
    by_cases h2 : (nonNull c).length < 2
    · rw [show (colStats (nonNull c)).stdSq =
          (if (nonNull c).length < 2 then none else some (sampleVarQ (nonNull c)))
          from rfl, if_pos h2] at hw
      exact Option.noConfusion hw
    · rw [show (colStats (nonNull c)).stdSq =
          (if (nonNull c).length < 2 then none else some (sampleVarQ (nonNull c)))
          from rfl, if_neg h2] at hw
      cases hw
      exact sampleVarQ_nonneg (by omega)
  · intro h2
    refine ⟨?_, sampleVarQ_nonneg h2⟩
    rw [show (colStats (nonNull c)).stdSq =
        (if (nonNull c).length < 2 then none else some (sampleVarQ (nonNull c)))
        from rfl, if_neg (by omega)]

/-- Witness for the amended C9 at the constant column of `dfConst` (four
non-null values, so the std part is non-vacuous). -/
theorem claim_C9_witness :
    colConst ∈ numericCols dfConst ∧ nonNull colConst ≠ [] ∧
      ((colConst.name, colStats (nonNull colConst)) ∈ calculate_basic_stats dfConst
      ∧ (colStats (nonNull colConst)).q1 = some (quantileQ (nonNull colConst) (1/4))
      ∧ (colStats (nonNull colConst)).median = some (quantileQ (nonNull colConst) (1/2))
      ∧ (colStats (nonNull colConst)).q3 = some (quantileQ (nonNull colConst) (3/4))
      ∧ (colStats (nonNull colConst)).min = some (listMinQ (nonNull colConst))
      ∧ (colStats (nonNull colConst)).max = some (listMaxQ (nonNull colConst))
      ∧ quantileQ (nonNull colConst) (1/4) ≤ quantileQ (nonNull colConst) (1/2)
      ∧ quantileQ (nonNull colConst) (1/2) ≤ quantileQ (nonNull colConst) (3/4)
      ∧ listMinQ (nonNull colConst) ≤ quantileQ (nonNull colConst) (1/4)
      ∧ quantileQ (nonNull colConst) (3/4) ≤ listMaxQ (nonNull colConst)
      ∧ (∀ w : ℚ, (colStats (nonNull colConst)).stdSq = some w → 0 ≤ w)
      ∧ (2 ≤ (nonNull colConst).length →
          (colStats (nonNull colConst)).stdSq = some (sampleVarQ (nonNull colConst))
          ∧ 0 ≤ sampleVarQ (nonNull colConst))) := by
  have hc : colConst ∈ numericCols dfConst := by
    simp [numericCols, dfConst, colConst]
  have hne : nonNull colConst ≠ [] := by
    rw [show nonNull colConst = [7, 7, 7, 7] from rfl]
    simp
  exact ⟨hc, hne, claim_C9_stats_invariants dfConst colConst hc hne⟩

end DataProfiler
